import Mathlib

/-!
Formal model of `muquit/github-profilegen-go` (`main.go`), a program that
fetches a user's GitHub repositories, filters them against an exclusion
list, sorts them by a priority list with a recency fallback, and renders
a README.

The model is a shallow embedding:
  * `time.Time` values are modelled as `Int` (nanoseconds since epoch);
    `t1.After(t2)` is `t1 > t2`.
  * The filesystem is a function `String → Except String (List String)`
    mapping a file name to its raw lines (or a read error).
  * The remote GitHub API is a function `Nat → Except FetchError (List Repository)`
    mapping a page number to the decoded page (or a request failure).
  * `strings.EqualFold` (simple Unicode case folding) is modelled as
    ASCII case-insensitive comparison via `String.toLower`.
  * Go's `sort.Slice` is modelled two ways: by its documented contract
    (`SortSliceOutput`: a permutation of the input that is sorted with
    respect to the comparator; stability is explicitly NOT guaranteed by
    `sort.Slice` — that is `sort.SliceStable`), and by an executable
    transcription of its actual algorithm (pdqsort, from the Go standard
    library `sort` package) in the `GoSort` namespace.
-/

/-- `Repository` mirrors the Go struct `Repository` in `main.go`.
Timestamps are `Int` nanoseconds; the optional `Source` pointer is an
`Option` of its `HTMLURL` field. -/
structure Repository where
  name : String
  htmlURL : String
  description : String
  language : String
  fork : Bool
  createdAt : Int
  updatedAt : Int
  pushedAt : Int
  homepage : String
  forksCount : Int
  stargazers : Int
  sourceURL : Option String
deriving DecidableEq, Repr, Inhabited

/-- ASCII case folding of one character (`A`-`Z` map to `a`-`z`),
represented on code points. -/
def foldChar (c : Char) : Nat :=
  if 65 ≤ c.toNat ∧ c.toNat ≤ 90 then c.toNat + 32 else c.toNat

/-- Model of Go `strings.EqualFold`: case-insensitive string equality
(simple case folding, modelled on ASCII). -/
def eqFold (s t : String) : Bool :=
  s.data.map foldChar == t.data.map foldChar

/-- `shouldExcludeRepo` from `main.go`: true iff `repoName` matches some
entry of `excludeList` case-insensitively. -/
def shouldExcludeRepo (repoName : String) (excludeList : List String) : Bool :=
  excludeList.any (fun name => eqFold repoName name)

/-- Helper for `getPriorityIndex`: index of the first case-insensitive
match, counting from `i`. -/
def getPriorityIndexAux (repoName : String) : List String → Nat → Int
  | [], _ => -1
  | name :: rest, i =>
    if eqFold repoName name then Int.ofNat i
    else getPriorityIndexAux repoName rest (i + 1)

/-- `getPriorityIndex` from `main.go`: the priority index of a repository,
`-1` if the name is not in the priority list. -/
def getPriorityIndex (repoName : String) (priorityList : List String) : Int :=
  getPriorityIndexAux repoName priorityList 0

/-- The filter loop in `main`: keep the repositories that
`shouldExcludeRepo` does not exclude, in order. -/
def filterRepos (repos : List Repository) (excludeList : List String) : List Repository :=
  repos.filter (fun repo => !shouldExcludeRepo repo.name excludeList)

/-- The comparator passed to `sort.Slice` in `main`: by priority index if
both records are in the priority list; a priority record before a
non-priority one; otherwise by `UpdatedAt` descending (newest first).
Note the fallback compares `UpdatedAt`, not `PushedAt`. -/
def sortLess (priorityList : List String) (a b : Repository) : Bool :=
  let iPriority := getPriorityIndex a.name priorityList
  let jPriority := getPriorityIndex b.name priorityList
  if 0 ≤ iPriority ∧ 0 ≤ jPriority then decide (iPriority < jPriority)
  else if 0 ≤ iPriority then true
  else if 0 ≤ jPriority then false
  else decide (a.updatedAt > b.updatedAt)

/-- Model of Go `strings.TrimSpace`: drop leading and trailing
whitespace (character-level, so that it evaluates in the kernel). -/
def trimSpace (s : String) : String :=
  String.mk (((s.data.dropWhile Char.isWhitespace).reverse.dropWhile Char.isWhitespace).reverse)

/-- Model of Go `strings.HasPrefix(s, "#")`: the first character is `#`. -/
def startsWithHash (s : String) : Bool :=
  match s.data with
  | [] => false
  | c :: _ => c = '#'

/-- Splitter for Go `strings.Split(line, "|")` (character-level). -/
def splitPipeAux : List Char → List (List Char)
  | [] => [[]]
  | c :: rest =>
    let r := splitPipeAux rest
    if c = '|' then [] :: r
    else
      match r with
      | [] => [[c]]
      | h :: t => (c :: h) :: t

/-- Model of Go `strings.Split(s, "|")`. -/
def splitPipe (s : String) : List String :=
  (splitPipeAux s.data).map String.mk

/-- One iteration of the scanner loop body in `loadTextFile`: trim the
line; keep it unless it is empty or starts with `#`. -/
def processLine (raw : String) : Option String :=
  let line := trimSpace raw
  if line != "" && !(startsWithHash line) then some line else none

/-- `loadTextFile` from `main.go` over the filesystem model: an empty
filename yields the empty list with no error; otherwise the raw lines of
the file are trimmed, dropping blank lines and `#` comment lines. -/
def loadTextFile (fs : String → Except String (List String)) (filename : String) :
    Except String (List String) :=
  if filename = "" then .ok []
  else
    match fs filename with
    | .error e => .error e
    | .ok rawLines => .ok (rawLines.filterMap processLine)

/-- `AICredit` mirrors the Go struct of the same name. -/
structure AICredit where
  imagePath : String
  altText : String
  titleText : String
  width : String
  height : String
deriving DecidableEq, Repr, Inhabited

/-- `loadAICredits` from `main.go`: parse pipe-delimited credit lines into
a map from repository name to credit (later lines overwrite earlier
ones, as for a Go map). -/
def loadAICredits (fs : String → Except String (List String)) (filename : String) :
    Except String (String → Option AICredit) :=
  if filename = "" then .ok (fun _ => none)
  else
    match loadTextFile fs filename with
    | .error e => .error e
    | .ok lines =>
      .ok (lines.foldl
        (fun credits line =>
          let parts := splitPipe line
          if 6 ≤ parts.length then
            let repoName := trimSpace (parts.getD 0 "")
            let credit : AICredit :=
              { imagePath := trimSpace (parts.getD 1 "")
                altText := trimSpace (parts.getD 2 "")
                titleText := trimSpace (parts.getD 3 "")
                width := trimSpace (parts.getD 4 "")
                height := trimSpace (parts.getD 5 "") }
            fun n => if n = repoName then some credit else credits n
          else credits)
        (fun _ => none))

/-- What the network returns for one page request: a transport failure
(`http.NewRequest` or `http.DefaultClient.Do` error), or a response
with its HTTP status code, raw body, and — for the cases where the body
is consumed by the JSON decoder — the decode result. -/
inductive PageResponse where
  | transportError (msg : String)
  | response (status : Nat) (body : String) (decoded : Except String (List Repository))
deriving Repr

/-- Failure modes of `fetchRepositories`: request-construction or
transport errors, a non-200 HTTP status (the raw status code and body
are kept in the error), or a JSON decode error. -/
inductive FetchError where
  | requestFailed (msg : String)
  | badStatus (status : Nat) (body : String)
  | decodeFailed (msg : String)
deriving DecidableEq, Repr

/-- `http.StatusOK`. -/
def statusOK : Nat := 200

/-- The fixed page size used by `fetchRepositories` (`perPage := 100`). -/
def perPage : Nat := 100

/-- The paging loop of `fetchRepositories`: request page `page`; a
transport failure aborts; a status other than `http.StatusOK` aborts
with an error carrying the raw status and body; a JSON decode failure
aborts; otherwise the page's records are appended and the loop stops
after the first page with fewer than `perPage` records.  Returns the
result together with the list of page numbers actually requested.
`fuel` bounds the recursion; every theorem about this function assumes
enough fuel for the pages it consumes. -/
def fetchPagesFrom (remote : Nat → PageResponse) :
    Nat → List Repository → Nat → Except FetchError (List Repository) × List Nat
  | 0, acc, _ => (.ok acc, [])
  | fuel + 1, acc, page =>
    match remote page with
    | .transportError msg => (.error (.requestFailed msg), [page])
    | .response status body decoded =>
      if status ≠ statusOK then (.error (.badStatus status body), [page])
      else
        match decoded with
        | .error msg => (.error (.decodeFailed msg), [page])
        | .ok repos =>
          if repos.length < perPage then (.ok (acc ++ repos), [page])
          else
            let rest := fetchPagesFrom remote fuel (acc ++ repos) (page + 1)
            (rest.1, page :: rest.2)

/-- `fetchRepositories` from `main.go`: fetch all pages starting at page 1
with the fixed page size, concatenating the pages received. -/
def fetchRepositories (remote : Nat → PageResponse) (fuel : Nat) :
    Except FetchError (List Repository) × List Nat :=
  fetchPagesFrom remote fuel [] 1

/-- Modelled from the spec: the enrichment stage (spec section 4.3,
`enrich(records, source)`) is not present in `src/`; no Go code in the
repository performs a release-existence check.  Following the spec's
words: for each record the release-existence check is invoked; on
failure the failure is absorbed and that record's has-releases flag
defaults to `false`; the stage never aborts.  The release check is
modelled as `check : String → Except String Bool`. -/
def enrichRepositories (check : String → Except String Bool) (repos : List Repository) :
    List (Repository × Bool) :=
  repos.map (fun r =>
    (r, match check r.name with
        | .ok b => b
        | .error _ => false))

/-!
Executable transcription of the Go standard library sorting algorithm
used by `sort.Slice` (pdqsort, file `sort/zsortfunc.go` of the Go
distribution).  Loops are encoded as recursions on exact iteration
counters where the count is known (`scanUp`, `scanDown`,
`insertionOuter`, ...) and on generous fuel where the loop structure
interlocks (`partitionAux`, `pdqsortGo`); with the fuel supplied at the
top level the fuel is never exhausted, so the transcription computes
exactly what the Go code computes.
-/

namespace GoSort

variable {α : Type} [Inhabited α]

/-- Element read `data[i]` (all accesses of the Go code are in bounds;
out-of-range reads return `default`). -/
def lget (l : List α) (i : Nat) : α :=
  l.getD i default

/-- `data.Swap(i, j)`. -/
def lswap (l : List α) (i j : Nat) : List α :=
  if i < l.length ∧ j < l.length then
    (l.set i (lget l j)).set j (lget l i)
  else l

/-- Go `insertionSort_func` inner loop: move element `j` left while it is
less than its predecessor. -/
def insertionInner (less : α → α → Bool) (a : Nat) : List α → Nat → List α
  | xs, 0 => xs
  | xs, j + 1 =>
    if a < j + 1 ∧ less (lget xs (j + 1)) (lget xs j) = true then
      insertionInner less a (lswap xs (j + 1) j) j
    else xs

/-- Go `insertionSort_func` outer loop, `cnt` remaining iterations
(`cnt = b - i`). -/
def insertionOuter (less : α → α → Bool) (a : Nat) : List α → Nat → Nat → List α
  | xs, _, 0 => xs
  | xs, i, cnt + 1 => insertionOuter less a (insertionInner less a xs i) (i + 1) cnt

/-- Go `insertionSort_func(data, a, b)`. -/
def insertionSortGo (less : α → α → Bool) (a b : Nat) (xs : List α) : List α :=
  insertionOuter less a xs (a + 1) (b - (a + 1))

/-- Go `siftDown_func(data, lo, hi, first)` with `root` the current node;
`fuel` bounds the descent (the heap depth is at most `hi`). -/
def siftDownF (less : α → α → Bool) (hi first : Nat) : Nat → List α → Nat → List α
  | 0, xs, _ => xs
  | fuel + 1, xs, root =>
    if 2 * root + 1 < hi then
      if 2 * root + 2 < hi ∧
          less (lget xs (first + (2 * root + 1))) (lget xs (first + (2 * root + 2))) = true then
        if less (lget xs (first + root)) (lget xs (first + (2 * root + 2))) then
          siftDownF less hi first fuel (lswap xs (first + root) (first + (2 * root + 2))) (2 * root + 2)
        else xs
      else
        if less (lget xs (first + root)) (lget xs (first + (2 * root + 1))) then
          siftDownF less hi first fuel (lswap xs (first + root) (first + (2 * root + 1))) (2 * root + 1)
        else xs
    else xs

/-- Build phase of Go `heapSort_func`: `siftDown` for `i = (hi-1)/2 .. 0`. -/
def heapBuild (less : α → α → Bool) (hi first : Nat) : List α → Nat → List α
  | xs, i =>
    let xs1 := siftDownF less hi first (hi + 1) xs i
    if h : i = 0 then xs1 else heapBuild less hi first xs1 (i - 1)
termination_by _ i => i
decreasing_by omega

/-- Pop phase of Go `heapSort_func`: for `i = hi-1 .. 0`, swap the root to
position `i` and restore the heap on the prefix. -/
def heapPop (less : α → α → Bool) (first : Nat) : List α → Nat → List α
  | xs, i =>
    let xs1 := siftDownF less i first (i + 1) (lswap xs first (first + i)) 0
    if h : i = 0 then xs1 else heapPop less first xs1 (i - 1)
termination_by _ i => i
decreasing_by omega

/-- Go `heapSort_func(data, a, b)`. -/
def heapSortGo (less : α → α → Bool) (a b : Nat) (xs : List α) : List α :=
  let hi := b - a
  let xs1 := heapBuild less hi a xs ((hi - 1) / 2)
  if hi = 0 then xs1 else heapPop less a xs1 (hi - 1)

/-- Upward scan `while i+1 ≤ jj ∧ p data i: i++` with exact iteration
count `c = jj - i`. -/
def scanUp (p : List α → Nat → Bool) : List α → Nat → Nat → Nat
  | _, i, 0 => i
  | xs, i, c + 1 => if p xs i then scanUp p xs (i + 1) c else i

/-- Downward scan `while i ≤ j ∧ p data j: j--`, with `jj = j + 1` (so
that Go's `j = -1` is representable) and exact iteration count
`c = jj - i`. -/
def scanDown (p : List α → Nat → Bool) : List α → Nat → Nat → Nat
  | _, jj, 0 => jj
  | xs, jj, c + 1 => if p xs (jj - 1) then scanDown p xs (jj - 1) c else jj

/-- The steady-state loop of Go `partition_func`: scan up over elements
less than the pivot (at `a`), scan down over elements not less, swap,
repeat; returns the final `j` (`jj - 1`).  `fuel` bounds the number of
rounds (each round shrinks `jj - i` by at least two). -/
def partitionAux (less : α → α → Bool) (a : Nat) : Nat → List α → Nat → Nat → List α × Nat
  | 0, xs, _, jj => (xs, jj - 1)
  | fuel + 1, xs, i, jj =>
    let i1 := scanUp (fun ys k => less (lget ys k) (lget ys a)) xs i (jj - i)
    let jj1 := scanDown (fun ys k => !less (lget ys k) (lget ys a)) xs jj (jj - i1)
    if jj1 < i1 + 1 then (xs, jj1 - 1)
    else partitionAux less a fuel (lswap xs i1 (jj1 - 1)) (i1 + 1) (jj1 - 1)

/-- Go `partition_func(data, a, b, pivot)`: Hoare-style partition around
the pivot moved to position `a`; returns the new array, the final pivot
position, and whether the range was already partitioned. -/
def partitionGo (less : α → α → Bool) (a b pivot : Nat) (xs : List α) : List α × Nat × Bool :=
  let xs0 := lswap xs a pivot
  let i1 := scanUp (fun ys k => less (lget ys k) (lget ys a)) xs0 (a + 1) (b - (a + 1))
  let jj1 := scanDown (fun ys k => !less (lget ys k) (lget ys a)) xs0 b (b - i1)
  if jj1 < i1 + 1 then (lswap xs0 (jj1 - 1) a, jj1 - 1, true)
  else
    let res := partitionAux less a (b + 1) (lswap xs0 i1 (jj1 - 1)) (i1 + 1) (jj1 - 1)
    (lswap res.1 res.2 a, res.2, false)

/-- The loop of Go `partitionEqual_func`: scan up over elements equal to
the pivot (not greater), scan down over strictly greater elements,
swap, repeat; returns the final `i`. -/
def partitionEqualAux (less : α → α → Bool) (a : Nat) : Nat → List α → Nat → Nat → List α × Nat
  | 0, xs, i, _ => (xs, i)
  | fuel + 1, xs, i, jj =>
    let i1 := scanUp (fun ys k => !less (lget ys a) (lget ys k)) xs i (jj - i)
    let jj1 := scanDown (fun ys k => less (lget ys a) (lget ys k)) xs jj (jj - i1)
    if jj1 < i1 + 1 then (xs, i1)
    else partitionEqualAux less a fuel (lswap xs i1 (jj1 - 1)) (i1 + 1) (jj1 - 1)

/-- Go `partitionEqual_func(data, a, b, pivot)`: partitions into elements
equal to the pivot and elements greater; returns the first index of the
greater block. -/
def partitionEqualGo (less : α → α → Bool) (a b pivot : Nat) (xs : List α) : List α × Nat :=
  partitionEqualAux less a (b + 1) (lswap xs a pivot) (a + 1) b

/-- The scan of Go `partialInsertionSort_func`: advance `i` while the
adjacent pair `(i-1, i)` is in order; exact count `c = b - i`. -/
def scanInOrder (less : α → α → Bool) : List α → Nat → Nat → Nat
  | _, i, 0 => i
  | xs, i, c + 1 =>
    if less (lget xs i) (lget xs (i - 1)) then i else scanInOrder less xs (i + 1) c

/-- Left shift loop of Go `partialInsertionSort_func`:
`for j := i-1; j >= 1; j--`, swapping while out of order. -/
def shiftLeftGo (less : α → α → Bool) : List α → Nat → List α
  | xs, 0 => xs
  | xs, j + 1 =>
    if less (lget xs (j + 1)) (lget xs j) then
      shiftLeftGo less (lswap xs (j + 1) j) j
    else xs

/-- Right shift loop of Go `partialInsertionSort_func`:
`for j := i+1; j < b; j++`, swapping while out of order; exact count
`c = b - j`. -/
def shiftRightGo (less : α → α → Bool) : List α → Nat → Nat → List α
  | xs, _, 0 => xs
  | xs, j, c + 1 =>
    if less (lget xs j) (lget xs (j - 1)) then
      shiftRightGo less (lswap xs j (j - 1)) (j + 1) c
    else xs

/-- Go `partialInsertionSort_func(data, a, b)` (`maxSteps = 5`,
`shortestShifting = 50`): returns the updated data and whether the range
ended up sorted. -/
def partInsertionSortSteps (less : α → α → Bool) (a b : Nat) : List α → Nat → Nat → List α × Bool
  | xs, 0, _ => (xs, false)
  | xs, steps + 1, i =>
    let i1 := scanInOrder less xs i (b - i)
    if i1 = b then (xs, true)
    else if b - a < 50 then (xs, false)
    else
      let xs1 := lswap xs i1 (i1 - 1)
      let xs2 := if 2 ≤ i1 - a then shiftLeftGo less xs1 (i1 - 1) else xs1
      let xs3 := if 2 ≤ b - i1 then shiftRightGo less xs2 (i1 + 1) (b - (i1 + 1)) else xs2
      partInsertionSortSteps less a b xs3 steps i1

/-- Go `partialInsertionSort_func(data, a, b)`. -/
def partInsertionSortGo (less : α → α → Bool) (a b : Nat) (xs : List α) : List α × Bool :=
  partInsertionSortSteps less a b xs 5 (a + 1)

/-- Go `reverseRange_func(data, a, b)` loop: swap `(i, j)` inward; exact
count not needed, `fuel = b` is generous. -/
def reverseRangeF : Nat → List α → Nat → Nat → List α
  | 0, xs, _, _ => xs
  | fuel + 1, xs, i, j => if i < j then reverseRangeF fuel (lswap xs i j) (i + 1) (j - 1) else xs

/-- Go `reverseRange_func(data, a, b)`. -/
def reverseRangeGo (xs : List α) (a b : Nat) : List α :=
  reverseRangeF b xs a (b - 1)

/-- Go `bits.Len` on a natural number: minimal number of bits. -/
def bitsLen (n : Nat) : Nat :=
  if n = 0 then 0 else Nat.log2 n + 1

/-- One step of the `xorshift` generator of the Go sort package
(64-bit: `s ^= s<<13; s ^= s>>7; s ^= s<<17`). -/
def xorshiftStep (s : Nat) : Nat :=
  let s1 := (s ^^^ ((s <<< 13) % 2 ^ 64)) % 2 ^ 64
  let s2 := s1 ^^^ (s1 >>> 7)
  (s2 ^^^ ((s2 <<< 17) % 2 ^ 64)) % 2 ^ 64

/-- The random other index of Go `breakPatterns_func`: the generator
value masked to the next power of two, reduced once if it overflows the
range length. -/
def breakOther (r len : Nat) : Nat :=
  let modulus := 1 <<< bitsLen len
  let t := r &&& (modulus - 1)
  if len ≤ t then t - len else t

/-- Go `breakPatterns_func(data, a, b)`: on ranges of length at least 8,
swap three positions around the midpoint with pseudo-random positions
(deterministic generator seeded with the length). -/
def breakPatternsGo (a b : Nat) (xs : List α) : List α :=
  let len := b - a
  if 8 ≤ len then
    let idx := a + len / 4 * 2 - 1
    let r1 := xorshiftStep len
    let xs1 := lswap xs (idx - 1) (a + breakOther r1 len)
    let r2 := xorshiftStep r1
    let xs2 := lswap xs1 idx (a + breakOther r2 len)
    let r3 := xorshiftStep r2
    lswap xs2 (idx + 1) (a + breakOther r3 len)
  else xs

/-- Result hints of Go `choosePivot_func`. -/
inductive SortedHint where
  | increasing
  | decreasing
  | unknown
deriving DecidableEq, Repr

/-- Go `order2_func`: order two indices by their elements, counting
comparator-mandated swaps. -/
def order2 (less : α → α → Bool) (xs : List α) (a b swaps : Nat) : Nat × Nat × Nat :=
  if less (lget xs b) (lget xs a) then (b, a, swaps + 1) else (a, b, swaps)

/-- Go `median_func`: index of the median element among three indices. -/
def medianOf (less : α → α → Bool) (xs : List α) (a b c swaps : Nat) : Nat × Nat :=
  let r1 := order2 less xs a b swaps
  let r2 := order2 less xs r1.2.1 c r1.2.2
  let r3 := order2 less xs r1.1 r2.1 r2.2.2
  (r3.2.1, r3.2.2)

/-- Go `medianAdjacent_func`: median of `data[i-1], data[i], data[i+1]`. -/
def medianAdjacent (less : α → α → Bool) (xs : List α) (i swaps : Nat) : Nat × Nat :=
  medianOf less xs (i - 1) i (i + 1) swaps

/-- Map a swap count to a hint (`0` increasing, `maxSwaps = 12`
decreasing, otherwise unknown), as in Go `choosePivot_func`. -/
def hintOf (swaps : Nat) : SortedHint :=
  if swaps = 0 then .increasing
  else if swaps = 12 then .decreasing
  else .unknown

/-- Go `choosePivot_func(data, a, b)`: median-of-three pivot selection
(with Tukey ninther on ranges of length at least 50), returning the
pivot index and a sortedness hint. -/
def choosePivotGo (less : α → α → Bool) (a b : Nat) (xs : List α) : Nat × SortedHint :=
  let l := b - a
  let i0 := a + l / 4 * 1
  let j0 := a + l / 4 * 2
  let k0 := a + l / 4 * 3
  if 8 ≤ l then
    if 50 ≤ l then
      let mi := medianAdjacent less xs i0 0
      let mj := medianAdjacent less xs j0 mi.2
      let mk := medianAdjacent less xs k0 mj.2
      let m := medianOf less xs mi.1 mj.1 mk.1 mk.2
      (m.1, hintOf m.2)
    else
      let m := medianOf less xs i0 j0 k0 0
      (m.1, hintOf m.2)
  else (j0, hintOf 0)

/-- Go `pdqsort_func(data, a, b, limit)`.  The loop state is
`(a, b, limit, wasBalanced, wasPartitioned)`; the `for { ... }` loop and
the recursive call on the shorter side are both encoded through `fuel`
(each consumes a strictly shorter range, so `length + 2` fuel at the top
level is never exhausted). -/
def pdqsortGo (less : α → α → Bool) :
    Nat → List α → Nat → Nat → Nat → Bool → Bool → List α
  | 0, xs, _, _, _, _, _ => xs
  | fuel + 1, xs, a, b, limit, wasBalanced, wasPartitioned =>
    let length := b - a
    if length ≤ 12 then insertionSortGo less a b xs
    else if limit = 0 then heapSortGo less a b xs
    else
      let xsA := if !wasBalanced then breakPatternsGo a b xs else xs
      let limitA := if !wasBalanced then limit - 1 else limit
      let pv := choosePivotGo less a b xsA
      let xsB := if pv.2 = .decreasing then reverseRangeGo xsA a b else xsA
      let pivot := if pv.2 = .decreasing then (b - 1) - (pv.1 - a) else pv.1
      let hint : SortedHint := if pv.2 = .decreasing then .increasing else pv.2
      let pis :=
        if wasBalanced ∧ wasPartitioned ∧ hint = .increasing then
          partInsertionSortGo less a b xsB
        else (xsB, false)
      if pis.2 then pis.1
      else
        let xsC := pis.1
        if 0 < a ∧ less (lget xsC (a - 1)) (lget xsC pivot) = false then
          let pe := partitionEqualGo less a b pivot xsC
          pdqsortGo less fuel pe.1 pe.2 b limitA wasBalanced wasPartitioned
        else
          let pt := partitionGo less a b pivot xsC
          let mid := pt.2.1
          let balanced := decide (min (mid - a) (b - mid) ≥ length / 8)
          if mid - a < b - mid then
            let xsD := pdqsortGo less fuel pt.1 a mid limitA true true
            pdqsortGo less fuel xsD (mid + 1) b limitA balanced pt.2.2
          else
            let xsD := pdqsortGo less fuel pt.1 (mid + 1) b limitA true true
            pdqsortGo less fuel xsD a mid limitA balanced pt.2.2

/-- Go `sort.Slice(x, less)`: `pdqsort(data, 0, length, bits.Len(length))`. -/
def goSortSlice (less : α → α → Bool) (l : List α) : List α :=
  pdqsortGo less (l.length + 2) l 0 l.length (bitsLen l.length) true true

end GoSort

/-- The `sort.Slice` call in `main`: sort the filtered repositories with
the priority/recency comparator (Go's pdqsort). -/
def sortRepositories (priorityList : List String) (repos : List Repository) : List Repository :=
  GoSort.goSortSlice (sortLess priorityList) repos

/-- A list is ordered with respect to a Go comparator when no adjacent
pair is strictly out of order: `less x[k+1] x[k]` fails for every `k`. -/
abbrev SortedByLess {α : Type} (less : α → α → Bool) (l : List α) : Prop :=
  List.Chain' (fun x y => less y x = false) l

/-- The documented contract of Go `sort.Slice(x, less)`: the output is a
permutation of the input that is ordered with respect to the
comparator.  `sort.Slice` guarantees nothing more; in particular it
does not guarantee stability (that is `sort.SliceStable`). -/
abbrev SortSliceOutput {α : Type} (less : α → α → Bool) (input output : List α) : Prop :=
  output.Perm input ∧ SortedByLess less output

/-- Two elements the comparator treats as equal: neither compares less
than the other. -/
def compEquiv {α : Type} (less : α → α → Bool) (x y : α) : Bool :=
  !less x y && !less y x

/-- Command-line flags of `main` (the `-version` flag, which exits before
the pipeline starts, is omitted). -/
structure Flags where
  username : String
  excludeFile : String
  priorityFile : String
  contactFile : String
  aiCreditFile : String
  outputFile : String
deriving DecidableEq, Repr, Inhabited

/-- Observable outcome of one run of `main`: the process exit code, and
`some (orderedRepos, contactInfo)` exactly when the run reached
`generateReadme` — i.e. the output file was created and written.
`written = none` means the path named by the output flag was never
touched. -/
structure RunOutcome where
  exitCode : Nat
  written : Option (List Repository × List String)
deriving DecidableEq, Repr

/-- The pipeline of `main` in `main.go`: load the exclusion, priority and
AI-credit inputs, fetch all repository pages, filter, sort, load the
contact file when the flag is given, then hand the ordered list to the
renderer.  Every failure before the render step prints an error and
exits with code 1 without touching the output file.  The render step
itself (template execution, file creation) is external to the claims
modelled here and is modelled as succeeding. -/
def runMain (fs : String → Except String (List String))
    (remote : Nat → PageResponse)
    (flags : Flags) (fuel : Nat) : RunOutcome :=
  if flags.username = "" then ⟨1, none⟩
  else
    match loadTextFile fs flags.excludeFile with
    | .error _ => ⟨1, none⟩
    | .ok excludeList =>
      match loadTextFile fs flags.priorityFile with
      | .error _ => ⟨1, none⟩
      | .ok priorityList =>
        match loadAICredits fs flags.aiCreditFile with
        | .error _ => ⟨1, none⟩
        | .ok _aiCredits =>
          match (fetchRepositories remote fuel).1 with
          | .error _ => ⟨1, none⟩
          | .ok repos =>
            let filteredRepos := filterRepos repos excludeList
            let sortedRepos := sortRepositories priorityList filteredRepos
            match (if flags.contactFile ≠ "" then loadTextFile fs flags.contactFile else .ok []) with
            | .error _ => ⟨1, none⟩
            | .ok contactInfo => ⟨0, some (sortedRepos, contactInfo)⟩

/-- Fixture repository record; only the fields the pipeline inspects
vary. -/
def mkRepo (name : String) (updatedAt pushedAt : Int) : Repository :=
  { name := name, htmlURL := "", description := "", language := "", fork := false,
    createdAt := 0, updatedAt := updatedAt, pushedAt := pushedAt, homepage := "",
    forksCount := 0, stargazers := 0, sourceURL := none }

/-- Thirteen-record fixture whose length exceeds the insertion-sort
cutoff (12) of the Go sort, so the partitioning path runs. -/
def reposThirteen : List Repository :=
  [mkRepo "r0" 0 0, mkRepo "r1" 0 0, mkRepo "r2" 4 0, mkRepo "r3" 1 0,
   mkRepo "r4" 4 0, mkRepo "r5" 4 0, mkRepo "r6" 2 0, mkRepo "r7" 0 0,
   mkRepo "r8" 1 0, mkRepo "r9" 2 0, mkRepo "r10" 3 0, mkRepo "r11" 1 0,
   mkRepo "r12" 1 0]

namespace GoSortFix

open GoSort

/-- Adjacent-sortedness of an array range in index form. -/
def AdjSorted {α : Type} [Inhabited α] (less : α → α → Bool) (xs : List α) : Prop :=
  ∀ k, k + 1 < xs.length → less (lget xs (k + 1)) (lget xs k) = false

/-- Pairwise sortedness of an array in index form. -/
def IdxSorted {α : Type} [Inhabited α] (less : α → α → Bool) (xs : List α) : Prop :=
  ∀ i j, i < j → j < xs.length → less (lget xs j) (lget xs i) = false

end GoSortFix

namespace GoSort

variable {α : Type} [Inhabited α]

theorem lget_eq_getElem {l : List α} {i : Nat} (hi : i < l.length) : lget l i = l[i] := by
  simp [lget, List.getD_eq_getElem?_getD, List.getElem?_eq_getElem hi]

theorem lswap_perm (l : List α) (i j : Nat) : (lswap l i j).Perm l := by
  classical
  unfold lswap
  split
  · rename_i h
    obtain ⟨hi, hj⟩ := h
    rw [List.perm_iff_count]
    intro b
    have hj2 : j < (l.set i (lget l j)).length := by simpa using hj
    rw [List.count_set _ _ _ _ hj2, List.count_set _ _ _ _ hi, List.getElem_set hj2]
    simp only [lget_eq_getElem hi, lget_eq_getElem hj]
    have hpc : (if (l[i] == b) = true then 1 else 0) ≤ List.count b l := by
      split
      · rename_i hbe
        have hb : b ∈ l := by rw [← eq_of_beq hbe]; exact List.getElem_mem hi
        exact List.one_le_count_iff.2 hb
      · exact Nat.zero_le _
    by_cases hij : i = j
    · subst hij
      by_cases hbe : (l[i] == b) = true <;> simp [hbe, List.length_set] at hpc ⊢ <;> (try omega) <;>
        (have h1 : 1 ≤ List.count b l := List.one_le_count_iff.2 hpc; omega)
    · rw [if_neg hij]
      by_cases hbe : (l[i] == b) = true <;> by_cases hbf : (l[j] == b) = true <;>
        simp [hbe, hbf, List.length_set] at hpc ⊢ <;> (try omega) <;>
        (have h1 : 1 ≤ List.count b l := List.one_le_count_iff.2 hpc; omega)
  · exact List.Perm.refl l

end GoSort

namespace GoSortPerm

open GoSort

variable {α : Type} [Inhabited α]

theorem lswap_mult (l : List α) (i j : Nat) :
    Multiset.ofList (lswap l i j) = Multiset.ofList l :=
  Multiset.coe_eq_coe.2 (lswap_perm l i j)

theorem insertionInner_mult (less : α → α → Bool) (a : Nat) :
    ∀ (j : Nat) (xs : List α),
      Multiset.ofList (insertionInner less a xs j) = Multiset.ofList xs := by
  intro j
  induction j with
  | zero => intro xs; simp [insertionInner]
  | succ j ih =>
    intro xs
    unfold insertionInner
    try dsimp only
    split_ifs <;> simp [ih, lswap_mult]

theorem insertionOuter_mult (less : α → α → Bool) (a : Nat) :
    ∀ (cnt i : Nat) (xs : List α),
      Multiset.ofList (insertionOuter less a xs i cnt) = Multiset.ofList xs := by
  intro cnt
  induction cnt with
  | zero => intro i xs; simp [insertionOuter]
  | succ cnt ih =>
    intro i xs
    unfold insertionOuter
    simp [ih, insertionInner_mult]

theorem insertionSortGo_mult (less : α → α → Bool) (a b : Nat) (xs : List α) :
    Multiset.ofList (insertionSortGo less a b xs) = Multiset.ofList xs := by
  simp [insertionSortGo, insertionOuter_mult]

theorem siftDownF_mult (less : α → α → Bool) (hi first : Nat) :
    ∀ (fuel : Nat) (xs : List α) (root : Nat),
      Multiset.ofList (siftDownF less hi first fuel xs root) = Multiset.ofList xs := by
  intro fuel
  induction fuel with
  | zero => intro xs root; simp [siftDownF]
  | succ fuel ih =>
    intro xs root
    unfold siftDownF
    try dsimp only
    split_ifs <;> simp [ih, lswap_mult]

theorem heapBuild_mult (less : α → α → Bool) (hi first : Nat) :
    ∀ (i : Nat) (xs : List α),
      Multiset.ofList (heapBuild less hi first xs i) = Multiset.ofList xs := by
  intro i
  induction i with
  | zero =>
    intro xs
    unfold heapBuild
    simp [siftDownF_mult]
  | succ i ih =>
    intro xs
    unfold heapBuild
    rw [dif_neg (by omega)]
    simp [ih, siftDownF_mult]

theorem heapPop_mult (less : α → α → Bool) (first : Nat) :
    ∀ (i : Nat) (xs : List α),
      Multiset.ofList (heapPop less first xs i) = Multiset.ofList xs := by
  intro i
  induction i with
  | zero =>
    intro xs
    unfold heapPop
    simp [siftDownF_mult, lswap_mult]
  | succ i ih =>
    intro xs
    unfold heapPop
    rw [dif_neg (by omega)]
    simp [ih, siftDownF_mult, lswap_mult]

theorem heapSortGo_mult (less : α → α → Bool) (a b : Nat) (xs : List α) :
    Multiset.ofList (heapSortGo less a b xs) = Multiset.ofList xs := by
  unfold heapSortGo
  try dsimp only
  split_ifs <;> simp [heapBuild_mult, heapPop_mult]

theorem partitionAux_mult (less : α → α → Bool) (a : Nat) :
    ∀ (fuel : Nat) (xs : List α) (i jj : Nat),
      Multiset.ofList (partitionAux less a fuel xs i jj).1 = Multiset.ofList xs := by
  intro fuel
  induction fuel with
  | zero => intro xs i jj; simp [partitionAux]
  | succ fuel ih =>
    intro xs i jj
    unfold partitionAux
    try dsimp only
    split_ifs <;> simp [ih, lswap_mult]

theorem partitionGo_mult (less : α → α → Bool) (a b pivot : Nat) (xs : List α) :
    Multiset.ofList (partitionGo less a b pivot xs).1 = Multiset.ofList xs := by
  unfold partitionGo
  try dsimp only
  split_ifs <;> simp [partitionAux_mult, lswap_mult]

theorem partitionEqualAux_mult (less : α → α → Bool) (a : Nat) :
    ∀ (fuel : Nat) (xs : List α) (i jj : Nat),
      Multiset.ofList (partitionEqualAux less a fuel xs i jj).1 = Multiset.ofList xs := by
  intro fuel
  induction fuel with
  | zero => intro xs i jj; simp [partitionEqualAux]
  | succ fuel ih =>
    intro xs i jj
    unfold partitionEqualAux
    try dsimp only
    split_ifs <;> simp [ih, lswap_mult]

theorem partitionEqualGo_mult (less : α → α → Bool) (a b pivot : Nat) (xs : List α) :
    Multiset.ofList (partitionEqualGo less a b pivot xs).1 = Multiset.ofList xs := by
  unfold partitionEqualGo
  try dsimp only
  simp [partitionEqualAux_mult, lswap_mult]

theorem shiftLeftGo_mult (less : α → α → Bool) :
    ∀ (j : Nat) (xs : List α),
      Multiset.ofList (shiftLeftGo less xs j) = Multiset.ofList xs := by
  intro j
  induction j with
  | zero => intro xs; simp [shiftLeftGo]
  | succ j ih =>
    intro xs
    unfold shiftLeftGo
    try dsimp only
    split_ifs <;> simp [ih, lswap_mult]

theorem shiftRightGo_mult (less : α → α → Bool) :
    ∀ (c : Nat) (xs : List α) (j : Nat),
      Multiset.ofList (shiftRightGo less xs j c) = Multiset.ofList xs := by
  intro c
  induction c with
  | zero => intro xs j; simp [shiftRightGo]
  | succ c ih =>
    intro xs j
    unfold shiftRightGo
    try dsimp only
    split_ifs <;> simp [ih, lswap_mult]

theorem partInsertionSortSteps_mult (less : α → α → Bool) (a b : Nat) :
    ∀ (steps : Nat) (xs : List α) (i : Nat),
      Multiset.ofList (partInsertionSortSteps less a b xs steps i).1 = Multiset.ofList xs := by
  intro steps
  induction steps with
  | zero => intro xs i; simp [partInsertionSortSteps]
  | succ steps ih =>
    intro xs i
    unfold partInsertionSortSteps
    try dsimp only
    split_ifs <;> simp [ih, lswap_mult, shiftLeftGo_mult, shiftRightGo_mult]

theorem partInsertionSortGo_mult (less : α → α → Bool) (a b : Nat) (xs : List α) :
    Multiset.ofList (partInsertionSortGo less a b xs).1 = Multiset.ofList xs := by
  simp [partInsertionSortGo, partInsertionSortSteps_mult]

theorem reverseRangeF_mult :
    ∀ (fuel : Nat) (xs : List α) (i j : Nat),
      Multiset.ofList (reverseRangeF fuel xs i j) = Multiset.ofList xs := by
  intro fuel
  induction fuel with
  | zero => intro xs i j; simp [reverseRangeF]
  | succ fuel ih =>
    intro xs i j
    unfold reverseRangeF
    try dsimp only
    split_ifs <;> simp [ih, lswap_mult]

theorem reverseRangeGo_mult (xs : List α) (a b : Nat) :
    Multiset.ofList (reverseRangeGo xs a b) = Multiset.ofList xs := by
  simp [reverseRangeGo, reverseRangeF_mult]

theorem breakPatternsGo_mult (a b : Nat) (xs : List α) :
    Multiset.ofList (breakPatternsGo a b xs) = Multiset.ofList xs := by
  unfold breakPatternsGo
  try dsimp only
  split_ifs <;> simp [lswap_mult]

set_option maxHeartbeats 2000000 in
theorem pdqsortGo_mult (less : α → α → Bool) :
    ∀ (fuel : Nat) (xs : List α) (a b limit : Nat) (wb wp : Bool),
      Multiset.ofList (pdqsortGo less fuel xs a b limit wb wp) = Multiset.ofList xs := by
  intro fuel
  induction fuel with
  | zero => intro xs a b limit wb wp; simp [pdqsortGo]
  | succ fuel ih =>
    intro xs a b limit wb wp
    unfold pdqsortGo
    try dsimp only
    split_ifs <;>
      simp only [ih, insertionSortGo_mult, heapSortGo_mult, breakPatternsGo_mult,
        reverseRangeGo_mult, partInsertionSortGo_mult, partitionEqualGo_mult,
        partitionGo_mult]

theorem goSortSlice_perm (less : α → α → Bool) (l : List α) :
    (goSortSlice less l).Perm l := by
  rw [← Multiset.coe_eq_coe]
  simp [goSortSlice, pdqsortGo_mult]

end GoSortPerm

namespace GoSortFix

open GoSort

variable {α : Type} [Inhabited α]

theorem IdxSorted.adj {less : α → α → Bool} {xs : List α} (h : IdxSorted less xs) :
    AdjSorted less xs := fun k hk => h k (k + 1) (Nat.lt_succ_self k) hk

theorem insertionInner_id (less : α → α → Bool) (a : Nat) (xs : List α) (i : Nat)
    (h1 : 1 ≤ i) (h2 : less (lget xs i) (lget xs (i - 1)) = false) :
    insertionInner less a xs i = xs := by
  cases i with
  | zero => simp [insertionInner]
  | succ j =>
    unfold insertionInner
    rw [if_neg]
    intro hc
    simp at h2
    exact absurd hc.2 (by simp [h2])

theorem insertionOuter_id (less : α → α → Bool) (a : Nat) (xs : List α)
    (hadj : AdjSorted less xs) :
    ∀ (cnt i : Nat), 1 ≤ i → i + cnt ≤ xs.length → insertionOuter less a xs i cnt = xs := by
  intro cnt
  induction cnt with
  | zero => intro i _ _; simp [insertionOuter]
  | succ cnt ih =>
    intro i hi hlen
    unfold insertionOuter
    rw [insertionInner_id less a xs i hi]
    · exact ih (i + 1) (by omega) (by omega)
    · have := hadj (i - 1) (by omega)
      have heq : i - 1 + 1 = i := by omega
      rwa [heq] at this

theorem insertionSortGo_id (less : α → α → Bool) (a b : Nat) (xs : List α)
    (hadj : AdjSorted less xs) (hb : b ≤ xs.length) :
    insertionSortGo less a b xs = xs := by
  unfold insertionSortGo
  by_cases hcase : b ≤ a + 1
  · have h0 : b - (a + 1) = 0 := by omega
    rw [h0]
    simp [insertionOuter]
  · exact insertionOuter_id less a xs hadj _ (a + 1) (by omega) (by omega)

theorem scanInOrder_full (less : α → α → Bool) (xs : List α)
    (hadj : AdjSorted less xs) :
    ∀ (c i : Nat), 1 ≤ i → i + c ≤ xs.length → scanInOrder less xs i c = i + c := by
  intro c
  induction c with
  | zero => intro i _ _; simp [scanInOrder]
  | succ c ih =>
    intro i hi hlen
    unfold scanInOrder
    rw [if_neg]
    · rw [ih (i + 1) (by omega) (by omega)]; omega
    · have := hadj (i - 1) (by omega)
      have heq : i - 1 + 1 = i := by omega
      rw [heq] at this
      simp [this]

theorem partInsertionSortGo_id (less : α → α → Bool) (a b : Nat) (xs : List α)
    (hadj : AdjSorted less xs) (hab : a + 1 ≤ b) (hb : b ≤ xs.length) :
    partInsertionSortGo less a b xs = (xs, true) := by
  unfold partInsertionSortGo partInsertionSortSteps
  rw [scanInOrder_full less xs hadj (b - (a + 1)) (a + 1) (by omega) (by omega)]
  rw [if_pos (by omega)]

theorem order2_id (less : α → α → Bool) (xs : List α) (p q s : Nat)
    (h : less (lget xs q) (lget xs p) = false) :
    order2 less xs p q s = (p, q, s) := by
  simp [order2, h]

theorem medianOf_id (less : α → α → Bool) (xs : List α) {p q r : Nat} (s : Nat)
    (hs : IdxSorted less xs) (hpq : p < q) (hqr : q < r) (hr : r < xs.length) :
    medianOf less xs p q r s = (q, s) := by
  unfold medianOf
  rw [order2_id less xs p q s (hs p q hpq (by omega))]
  dsimp only
  rw [order2_id less xs q r s (hs q r hqr hr)]
  dsimp only
  rw [order2_id less xs p q s (hs p q hpq (by omega))]

theorem medianAdjacent_id (less : α → α → Bool) (xs : List α) {i : Nat} (s : Nat)
    (hs : IdxSorted less xs) (hi : 1 ≤ i) (hi2 : i + 1 < xs.length) :
    medianAdjacent less xs i s = (i, s) := by
  unfold medianAdjacent
  exact medianOf_id less xs s hs (by omega) (by omega) hi2

theorem choosePivotGo_id (less : α → α → Bool) (a b : Nat) (xs : List α)
    (hs : IdxSorted less xs) (hlen : 13 ≤ b - a) (hb : b ≤ xs.length) :
    choosePivotGo less a b xs = (a + (b - a) / 4 * 2, .increasing) := by
  unfold choosePivotGo
  have hq : 3 ≤ (b - a) / 4 := by omega
  rw [if_pos (by omega)]
  by_cases h50 : 50 ≤ b - a
  · rw [if_pos h50]
    have hq12 : 12 ≤ (b - a) / 4 := by omega
    dsimp only
    rw [medianAdjacent_id less xs 0 hs (by omega) (by omega)]
    dsimp only
    rw [medianAdjacent_id less xs 0 hs (by omega) (by omega)]
    dsimp only
    rw [medianAdjacent_id less xs 0 hs (by omega) (by omega)]
    dsimp only
    rw [medianOf_id less xs 0 hs (by omega) (by omega) (by omega)]
    simp [hintOf]
  · rw [if_neg h50]
    dsimp only
    rw [medianOf_id less xs 0 hs (by omega) (by omega) (by omega)]
    simp [hintOf]

end GoSortFix

namespace GoSortFix

open GoSort

variable {α : Type} [Inhabited α]

theorem bitsLen_ne_zero {n : Nat} (h : n ≠ 0) : bitsLen n ≠ 0 := by
  simp [bitsLen, h]

theorem pdqsortGo_of_sorted (less : α → α → Bool) (xs : List α) (fuel limit : Nat)
    (hs : IdxSorted less xs)
    (hlim : xs.length ≤ 12 ∨ limit ≠ 0) :
    pdqsortGo less (fuel + 1) xs 0 xs.length limit true true = xs := by
  unfold pdqsortGo
  dsimp only
  simp only [Nat.sub_zero]
  by_cases h12 : xs.length ≤ 12
  · rw [if_pos h12]
    exact insertionSortGo_id less 0 xs.length xs hs.adj (by omega)
  · rw [if_neg h12]
    have hlimit : limit ≠ 0 := hlim.resolve_left h12
    rw [if_neg hlimit]
    rw [if_neg (by decide : ¬((!true) = true))]
    rw [choosePivotGo_id less 0 xs.length xs hs (by omega) (by omega)]
    dsimp only
    have hpis := partInsertionSortGo_id less 0 xs.length xs hs.adj (by omega) (by omega)
    simp [hpis]

theorem goSortSlice_of_sorted (less : α → α → Bool) (l : List α) (hs : IdxSorted less l) :
    goSortSlice less l = l := by
  unfold goSortSlice
  have h2 : l.length + 2 = (l.length + 1) + 1 := rfl
  rw [h2]
  apply pdqsortGo_of_sorted less l (l.length + 1) _ hs
  by_cases h : l.length ≤ 12
  · exact Or.inl h
  · exact Or.inr (bitsLen_ne_zero (by omega))

end GoSortFix

theorem sortLess_false_iff (P : List String) (x y : Repository) :
    sortLess P y x = false ↔
      (0 ≤ getPriorityIndex x.name P ∧ 0 ≤ getPriorityIndex y.name P ∧
        getPriorityIndex x.name P ≤ getPriorityIndex y.name P) ∨
      (0 ≤ getPriorityIndex x.name P ∧ getPriorityIndex y.name P < 0) ∨
      (getPriorityIndex x.name P < 0 ∧ getPriorityIndex y.name P < 0 ∧
        y.updatedAt ≤ x.updatedAt) := by
  unfold sortLess
  dsimp only
  split_ifs <;> simp_all <;> omega

theorem sortLess_false_trans (P : List String) (a b c : Repository)
    (h1 : sortLess P b a = false) (h2 : sortLess P c b = false) :
    sortLess P c a = false := by
  rw [sortLess_false_iff] at h1 h2 ⊢
  omega

theorem sortSliceOutput_pairwise {P : List String} {L out : List Repository}
    (h : SortSliceOutput (sortLess P) L out) :
    List.Pairwise (fun x y => sortLess P y x = false) out := by
  haveI : IsTrans Repository (fun x y => sortLess P y x = false) :=
    ⟨fun x y z h1 h2 => sortLess_false_trans P x y z h1 h2⟩
  exact List.chain'_iff_pairwise.1 h.2

theorem sortSliceOutput_idxSorted {P : List String} {L out : List Repository}
    (h : SortSliceOutput (sortLess P) L out) :
    GoSortFix.IdxSorted (sortLess P) out := by
  have hp := sortSliceOutput_pairwise h
  rw [List.pairwise_iff_getElem] at hp
  intro i j hij hj
  rw [GoSort.lget_eq_getElem hj, GoSort.lget_eq_getElem (by omega)]
  exact hp i j (by omega) hj hij


/-- Two-element chains for the Go sort contract, for concrete witnesses. -/
theorem sortedByLess_pair {α : Type} (less : α → α → Bool) (x y : α)
    (h : less y x = false) : SortedByLess less [x, y] := by
  simp [SortedByLess, List.chain'_cons, h]

/-- Three-element chains for the Go sort contract, for concrete witnesses. -/
theorem sortedByLess_triple {α : Type} (less : α → α → Bool) (x y z : α)
    (h1 : less y x = false) (h2 : less z y = false) : SortedByLess less [x, y, z] := by
  simp [SortedByLess, List.chain'_cons, h1, h2]

/-- C1, as stated (refuted below): in the ordering stage, all
non-priority records would appear sorted by last-pushed timestamp
descending.  The counterexample shows the code orders by the
last-updated timestamp instead: on two non-priority records where the
update order and the push order disagree, the sorted output (here also
computed by the executable Go sort) puts the later-updated,
earlier-pushed record first. -/
theorem C1_counterexample :
    (¬ ∀ (P : List String) (L out : List Repository), SortSliceOutput (sortLess P) L out →
        List.Pairwise (fun x y =>
          getPriorityIndex x.name P < 0 → getPriorityIndex y.name P < 0 →
            y.pushedAt ≤ x.pushedAt) out) ∧
    sortRepositories [] [mkRepo "b" 0 10, mkRepo "a" 10 0] =
      [mkRepo "a" 10 0, mkRepo "b" 0 10] ∧
    (mkRepo "a" 10 0).pushedAt < (mkRepo "b" 0 10).pushedAt := by
  refine ⟨fun h => ?_, by decide, by decide⟩
  have := h [] [mkRepo "a" 10 0, mkRepo "b" 0 10]
    [mkRepo "a" 10 0, mkRepo "b" 0 10] ⟨List.Perm.refl _, sortedByLess_pair _ _ _ (by rfl)⟩
  exact absurd this (by decide)

/-- C1 amended: in the ordering stage, for every pair of records neither
of whose names appears (case-insensitively) in the priority list, the
compared-earlier record in the final sequence is the one with the later
last-UPDATED timestamp: all non-priority records appear sorted by
last-updated timestamp descending. -/
theorem ordering_nonPriority_by_updatedAt
    (P : List String) (L out : List Repository)
    (h : SortSliceOutput (sortLess P) L out) :
    List.Pairwise (fun x y =>
      getPriorityIndex x.name P < 0 → getPriorityIndex y.name P < 0 →
        y.updatedAt ≤ x.updatedAt) out := by
  refine (sortSliceOutput_pairwise h).imp ?_
  intro x y hxy hx hy
  rw [sortLess_false_iff] at hxy
  omega

/-- Witness for the amended C1 at a concrete input. -/
theorem ordering_nonPriority_by_updatedAt_witness :
    SortSliceOutput (sortLess ["b"])
      [mkRepo "b" 1 0, mkRepo "a" 9 0, mkRepo "c" 5 0]
      [mkRepo "b" 1 0, mkRepo "a" 9 0, mkRepo "c" 5 0] ∧
    List.Pairwise (fun x y =>
      getPriorityIndex x.name ["b"] < 0 → getPriorityIndex y.name ["b"] < 0 →
        y.updatedAt ≤ x.updatedAt)
      [mkRepo "b" 1 0, mkRepo "a" 9 0, mkRepo "c" 5 0] :=
  ⟨⟨List.Perm.refl _, sortedByLess_triple _ _ _ _ (by rfl) (by rfl)⟩,
    ordering_nonPriority_by_updatedAt ["b"] _ _
      ⟨List.Perm.refl _, sortedByLess_triple _ _ _ _ (by rfl) (by rfl)⟩⟩

/-- C2, as stated (refuted below): the ordering stage would be a stable
sort.  The code calls Go `sort.Slice`, which is documented as not
stable; under its contract an output reordering comparator-equal
records is permitted, and the executable transcription of the algorithm
actually does reorder them: on the thirteen-record fixture the three
records with updated timestamp 4 enter in order r2, r4, r5 and leave in
order r4, r2, r5. -/
theorem C2_counterexample :
    (¬ ∀ (P : List String) (L out : List Repository), SortSliceOutput (sortLess P) L out →
        ∀ x, out.filter (fun y => compEquiv (sortLess P) x y) =
          L.filter (fun y => compEquiv (sortLess P) x y)) ∧
    (sortRepositories [] reposThirteen).filter (fun r => r.updatedAt == 4) =
      [mkRepo "r4" 4 0, mkRepo "r2" 4 0, mkRepo "r5" 4 0] ∧
    reposThirteen.filter (fun r => r.updatedAt == 4) =
      [mkRepo "r2" 4 0, mkRepo "r4" 4 0, mkRepo "r5" 4 0] ∧
    compEquiv (sortLess []) (mkRepo "r2" 4 0) (mkRepo "r4" 4 0) = true := by
  refine ⟨fun h => ?_, by decide, by decide, by decide⟩
  have := h [] [mkRepo "x" 5 0, mkRepo "y" 5 0] [mkRepo "y" 5 0, mkRepo "x" 5 0]
    ⟨List.Perm.swap _ _ _, sortedByLess_pair _ _ _ (by decide)⟩ (mkRepo "x" 5 0)
  exact absurd this (by decide)

/-- C2 amended: the ordering stage is not stable; comparator-equal
records may be reordered.  What does hold of the sort is that the
output is a permutation of the input: no record is added, dropped or
duplicated. -/
theorem ordering_permutation (P : List String) (L : List Repository) :
    (sortRepositories P L).Perm L :=
  GoSortPerm.goSortSlice_perm (sortLess P) L

/-- C3: in every contract-permissible output of the ordering stage,
every record whose name case-insensitively matches the priority list
appears before every record that matches no entry (a non-priority
record is never followed by a priority one), and the priority-matched
records appear in exactly the priority list's relative order (their
priority indices are non-decreasing along the output); entries of the
priority list matching no record constrain nothing. -/
theorem ordering_priority_first (P : List String) (L out : List Repository)
    (h : SortSliceOutput (sortLess P) L out) :
    List.Pairwise (fun x y =>
      (0 ≤ getPriorityIndex y.name P → 0 ≤ getPriorityIndex x.name P) ∧
      (0 ≤ getPriorityIndex x.name P → 0 ≤ getPriorityIndex y.name P →
        getPriorityIndex x.name P ≤ getPriorityIndex y.name P)) out := by
  refine (sortSliceOutput_pairwise h).imp ?_
  intro x y hxy
  rw [sortLess_false_iff] at hxy
  constructor <;> omega

/-- Witness for C3 at a concrete input with a two-entry priority list. -/
theorem ordering_priority_first_witness :
    SortSliceOutput (sortLess ["b", "a"])
      [mkRepo "b" 1 0, mkRepo "a" 9 0, mkRepo "c" 5 0]
      [mkRepo "b" 1 0, mkRepo "a" 9 0, mkRepo "c" 5 0] ∧
    List.Pairwise (fun x y =>
      (0 ≤ getPriorityIndex y.name ["b", "a"] → 0 ≤ getPriorityIndex x.name ["b", "a"]) ∧
      (0 ≤ getPriorityIndex x.name ["b", "a"] → 0 ≤ getPriorityIndex y.name ["b", "a"] →
        getPriorityIndex x.name ["b", "a"] ≤ getPriorityIndex y.name ["b", "a"]))
      [mkRepo "b" 1 0, mkRepo "a" 9 0, mkRepo "c" 5 0] :=
  ⟨⟨List.Perm.refl _, sortedByLess_triple _ _ _ _ (by decide) (by decide)⟩,
    ordering_priority_first ["b", "a"] _ _
      ⟨List.Perm.refl _, sortedByLess_triple _ _ _ _ (by decide) (by decide)⟩⟩

/-- C6: the ordering stage is idempotent — applying the sort to any
contract-permissible output of the ordering stage returns it unchanged
(the executable Go sort recognises a sorted range in its first
iteration and performs no swap). -/
theorem ordering_idempotent (P : List String) (L out : List Repository)
    (h : SortSliceOutput (sortLess P) L out) :
    sortRepositories P out = out :=
  GoSortFix.goSortSlice_of_sorted (sortLess P) out (sortSliceOutput_idxSorted h)

/-- Witness for C6 at a concrete input. -/
theorem ordering_idempotent_witness :
    SortSliceOutput (sortLess ["b"])
      [mkRepo "c" 5 0, mkRepo "b" 1 0, mkRepo "a" 9 0]
      [mkRepo "b" 1 0, mkRepo "a" 9 0, mkRepo "c" 5 0] ∧
    sortRepositories ["b"] [mkRepo "b" 1 0, mkRepo "a" 9 0, mkRepo "c" 5 0] =
      [mkRepo "b" 1 0, mkRepo "a" 9 0, mkRepo "c" 5 0] := by
  have hperm : [mkRepo "b" 1 0, mkRepo "a" 9 0, mkRepo "c" 5 0].Perm
      [mkRepo "c" 5 0, mkRepo "b" 1 0, mkRepo "a" 9 0] :=
    List.Perm.trans (List.Perm.cons _ (List.Perm.swap _ _ _)) (List.Perm.swap _ _ _)
  have hs : SortSliceOutput (sortLess ["b"])
      [mkRepo "c" 5 0, mkRepo "b" 1 0, mkRepo "a" 9 0]
      [mkRepo "b" 1 0, mkRepo "a" 9 0, mkRepo "c" 5 0] :=
    ⟨hperm, sortedByLess_triple _ _ _ _ (by decide) (by decide)⟩
  exact ⟨hs, ordering_idempotent ["b"] _ _ hs⟩

/-- C4: the filter stage returns exactly the records whose name does not
case-insensitively match any exclusion entry, in the original relative
order (a sublist of the input), and an empty exclusion list is a no-op. -/
theorem filter_exact (L : List Repository) (E : List String) :
    (filterRepos L E).Sublist L ∧
    (∀ r, r ∈ filterRepos L E ↔ r ∈ L ∧ ∀ e ∈ E, eqFold r.name e = false) ∧
    filterRepos L [] = L := by
  refine ⟨List.filter_sublist L, ?_, ?_⟩
  · intro r
    simp [filterRepos, List.mem_filter, shouldExcludeRepo, List.any_eq_true]
  · simp [filterRepos, shouldExcludeRepo]

/-- Witness for C4: the spec's own end-to-end scenario — record `x` is
removed by exclusion entry `X` case-insensitively, `y` survives. -/
theorem filter_exact_witness :
    ((filterRepos [mkRepo "x" 0 0, mkRepo "y" 0 0] ["X"]).Sublist
        [mkRepo "x" 0 0, mkRepo "y" 0 0] ∧
      (∀ r, r ∈ filterRepos [mkRepo "x" 0 0, mkRepo "y" 0 0] ["X"] ↔
        r ∈ [mkRepo "x" 0 0, mkRepo "y" 0 0] ∧ ∀ e ∈ ["X"], eqFold r.name e = false) ∧
      filterRepos [mkRepo "x" 0 0, mkRepo "y" 0 0] [] =
        [mkRepo "x" 0 0, mkRepo "y" 0 0]) ∧
    filterRepos [mkRepo "x" 0 0, mkRepo "y" 0 0] ["X"] = [mkRepo "y" 0 0] :=
  ⟨filter_exact [mkRepo "x" 0 0, mkRepo "y" 0 0] ["X"], by decide⟩

/-- C5 (enrichment stage modelled from the spec): when the release check
fails for repository `rName`, the enriched flag of every record with
that name is `false`, every other record's enrichment result is
identical to what it would be had the check for `rName` succeeded
(returning any `b`), and the stage completes for all records (the
output has one entry per input record). -/
theorem enrich_isolation (check : String → Except String Bool) (rName e : String) (b : Bool)
    (repos : List Repository) (hfail : check rName = .error e) :
    (enrichRepositories check repos).length = repos.length ∧
    (∀ (i : Nat) (r : Repository), repos[i]? = some r → r.name = rName →
      (enrichRepositories check repos)[i]? = some (r, false)) ∧
    (∀ (i : Nat) (r : Repository), repos[i]? = some r → r.name ≠ rName →
      (enrichRepositories check repos)[i]? =
        (enrichRepositories (fun n => if n = rName then Except.ok b else check n) repos)[i]?) := by
  refine ⟨by simp [enrichRepositories], ?_, ?_⟩
  · intro i r hir hname
    simp [enrichRepositories, List.getElem?_map, hir, hname, hfail]
  · intro i r hir hname
    simp [enrichRepositories, List.getElem?_map, hir, hname]

/-- Witness for C5: a two-record list where the check fails for `bad`
and succeeds for `good`. -/
theorem enrich_isolation_witness :
    ((fun n => if n = "bad" then Except.error "boom" else Except.ok true) "bad"
        = Except.error "boom") ∧
    ((enrichRepositories (fun n => if n = "bad" then Except.error "boom" else Except.ok true)
        [mkRepo "good" 0 0, mkRepo "bad" 0 0]).length = 2 ∧
      (∀ (i : Nat) (r : Repository), [mkRepo "good" 0 0, mkRepo "bad" 0 0][i]? = some r → r.name = "bad" →
        (enrichRepositories (fun n => if n = "bad" then Except.error "boom" else Except.ok true)
          [mkRepo "good" 0 0, mkRepo "bad" 0 0])[i]? = some (r, false)) ∧
      (∀ (i : Nat) (r : Repository), [mkRepo "good" 0 0, mkRepo "bad" 0 0][i]? = some r → r.name ≠ "bad" →
        (enrichRepositories (fun n => if n = "bad" then Except.error "boom" else Except.ok true)
          [mkRepo "good" 0 0, mkRepo "bad" 0 0])[i]? =
        (enrichRepositories (fun n => if n = "bad" then Except.ok false else
            (fun m => if m = "bad" then Except.error "boom" else Except.ok true) n)
          [mkRepo "good" 0 0, mkRepo "bad" 0 0])[i]?)) ∧
    enrichRepositories (fun n => if n = "bad" then Except.error "boom" else Except.ok true)
        [mkRepo "good" 0 0, mkRepo "bad" 0 0] =
      [(mkRepo "good" 0 0, true), (mkRepo "bad" 0 0, false)] := by
  refine ⟨by rfl, ?_, by rfl⟩
  have h := enrich_isolation
    (fun n => if n = "bad" then Except.error "boom" else Except.ok true)
    "bad" "boom" false [mkRepo "good" 0 0, mkRepo "bad" 0 0] (by rfl)
  exact h

/-- The paging loop on successful pages: starting at page `p ≤ k`, with
pages `p..k-1` full and page `k` short, all returned with status 200
and decoding cleanly, it returns the accumulator followed by pages
`p..k`, having requested exactly pages `p..k`. -/
theorem fetchPagesFrom_ok_spec (remote : Nat → PageResponse)
    (pageOf : Nat → List Repository) (bodyOf : Nat → String) (k : Nat)
    (hok : ∀ j, 1 ≤ j → j ≤ k → remote j = .response statusOK (bodyOf j) (.ok (pageOf j)))
    (hfull : ∀ j, 1 ≤ j → j < k → perPage ≤ (pageOf j).length)
    (hshort : (pageOf k).length < perPage) :
    ∀ (fuel p : Nat) (acc : List Repository), 1 ≤ p → p ≤ k → k + 1 ≤ p + fuel →
      fetchPagesFrom remote fuel acc p =
        (.ok (acc ++ (List.range' p (k + 1 - p)).flatMap pageOf),
          List.range' p (k + 1 - p)) := by
  intro fuel
  induction fuel with
  | zero => intro p acc h1 h2 h3; omega
  | succ fuel ih =>
    intro p acc h1 h2 h3
    unfold fetchPagesFrom
    rw [hok p h1 h2]
    dsimp only
    rw [if_neg (show ¬(statusOK ≠ statusOK) from fun hc => hc rfl)]
    by_cases hpk : p = k
    · subst hpk
      rw [if_pos hshort]
      have h4 : p + 1 - p = 1 := by omega
      rw [h4]
      simp [List.range']
    · rw [if_neg (by have := hfull p h1 (by omega); omega)]
      rw [ih (p + 1) (acc ++ pageOf p) (by omega) (by omega) (by omega)]
      have h4 : k + 1 - p = (k + 1 - (p + 1)) + 1 := by omega
      rw [h4]
      simp [List.range', List.flatMap_cons]

/-- C7: `fetchRepositories` requests pages of the fixed size starting at
page 1 and, as soon as it receives the first page with fewer than
`perPage` records (possibly empty), returns the concatenation of all
pages received so far, without requesting any further page (the trace
of requested pages is exactly `1..k`). -/
theorem fetch_pagination_terminates (remote : Nat → PageResponse)
    (pageOf : Nat → List Repository) (bodyOf : Nat → String) (k fuel : Nat)
    (hk : 1 ≤ k) (hfuel : k ≤ fuel)
    (hok : ∀ j, 1 ≤ j → j ≤ k → remote j = .response statusOK (bodyOf j) (.ok (pageOf j)))
    (hfull : ∀ j, 1 ≤ j → j < k → perPage ≤ (pageOf j).length)
    (hshort : (pageOf k).length < perPage) :
    fetchRepositories remote fuel =
      (.ok ((List.range' 1 k).flatMap pageOf), List.range' 1 k) := by
  unfold fetchRepositories
  have h := fetchPagesFrom_ok_spec remote pageOf bodyOf k hok hfull hshort fuel 1 []
    (Nat.le_refl 1) hk (by omega)
  simpa using h

/-- Witness for C7: page 1 is full (100 records), page 2 is empty; the
fetch returns page 1's records and requests exactly pages 1 and 2. -/
theorem fetch_pagination_terminates_witness :
    fetchRepositories
      (fun j => .response statusOK ""
        (.ok (if j = 2 then [] else List.replicate 100 (mkRepo "p" 0 0)))) 5 =
      (.ok ((List.range' 1 2).flatMap
          (fun j => if j = 2 then [] else List.replicate 100 (mkRepo "p" 0 0))),
        List.range' 1 2) := by
  refine fetch_pagination_terminates _ _ (fun _ => "") 2 5 (by omega) (by omega) ?_ ?_ ?_
  · intro j h1 h2; rfl
  · intro j h1 h2
    have hj : j = 1 := by omega
    subst hj
    simp [perPage]
  · simp [perPage]

/-- The paging loop when a page comes back with a non-success status:
pages `p..k-1` succeed full and page `k` returns status `s ≠ 200` with
body `body`; the loop fails with the error carrying that status and
body, having requested exactly pages `p..k`. -/
theorem fetchPagesFrom_badStatus_spec (remote : Nat → PageResponse)
    (pageOf : Nat → List Repository) (bodyOf : Nat → String) (k s : Nat)
    (body : String) (d : Except String (List Repository))
    (hok : ∀ j, 1 ≤ j → j < k →
      remote j = .response statusOK (bodyOf j) (.ok (pageOf j)) ∧ perPage ≤ (pageOf j).length)
    (herr : remote k = .response s body d) (hs : s ≠ statusOK) :
    ∀ (fuel p : Nat) (acc : List Repository), 1 ≤ p → p ≤ k → k + 1 ≤ p + fuel →
      fetchPagesFrom remote fuel acc p =
        (.error (.badStatus s body), List.range' p (k + 1 - p)) := by
  intro fuel
  induction fuel with
  | zero => intro p acc h1 h2 h3; omega
  | succ fuel ih =>
    intro p acc h1 h2 h3
    unfold fetchPagesFrom
    by_cases hpk : p = k
    · subst hpk
      rw [herr]
      dsimp only
      rw [if_pos hs]
      have h4 : p + 1 - p = 1 := by omega
      rw [h4]
      simp [List.range']
    · rw [(hok p h1 (by omega)).1]
      dsimp only
      rw [if_neg (show ¬(statusOK ≠ statusOK) from fun hc => hc rfl)]
      rw [if_neg (by have := (hok p h1 (by omega)).2; omega)]
      rw [ih (p + 1) (acc ++ pageOf p) (by omega) (by omega) (by omega)]
      have h4 : k + 1 - p = (k + 1 - (p + 1)) + 1 := by omega
      rw [h4]
      simp [List.range']

/-- C8: when some page request returns a non-success status, the whole
fetch fails with an error carrying the raw status code and body, and —
provided the run reached the fetch (username given, all input lists
loaded) — the run is fatal: exit code 1 and no output file written. -/
theorem fetch_badStatus_fatal (remote : Nat → PageResponse)
    (pageOf : Nat → List Repository) (bodyOf : Nat → String) (k fuel s : Nat) (body : String)
    (d : Except String (List Repository))
    (fs : String → Except String (List String)) (flags : Flags)
    (exL pL : List String) (aiC : String → Option AICredit)
    (hk : 1 ≤ k) (hfuel : k ≤ fuel)
    (hok : ∀ j, 1 ≤ j → j < k →
      remote j = .response statusOK (bodyOf j) (.ok (pageOf j)) ∧ perPage ≤ (pageOf j).length)
    (herr : remote k = .response s body d) (hs : s ≠ statusOK)
    (hu : flags.username ≠ "")
    (hex : loadTextFile fs flags.excludeFile = .ok exL)
    (hpr : loadTextFile fs flags.priorityFile = .ok pL)
    (hai : loadAICredits fs flags.aiCreditFile = .ok aiC) :
    fetchRepositories remote fuel = (.error (.badStatus s body), List.range' 1 k) ∧
    runMain fs remote flags fuel = ⟨1, none⟩ := by
  have hf : fetchRepositories remote fuel =
      (.error (.badStatus s body), List.range' 1 k) := by
    unfold fetchRepositories
    have h := fetchPagesFrom_badStatus_spec remote pageOf bodyOf k s body d hok herr hs
      fuel 1 [] (Nat.le_refl 1) hk (by omega)
    simpa using h
  refine ⟨hf, ?_⟩
  unfold runMain
  rw [if_neg hu, hex, hpr, hai, hf]

/-- Witness for C8: the first page request returns status 403 with a
rate-limit body. -/
theorem fetch_badStatus_fatal_witness :
    fetchRepositories (fun _ => .response 403 "rate limited" (.error "not json")) 3 =
      (.error (.badStatus 403 "rate limited"), List.range' 1 1) ∧
    runMain (fun _ => .ok []) (fun _ => .response 403 "rate limited" (.error "not json"))
      ⟨"muquit", "", "", "", "", "README.md"⟩ 3 = ⟨1, none⟩ :=
  fetch_badStatus_fatal (fun _ => .response 403 "rate limited" (.error "not json"))
    (fun _ => []) (fun _ => "") 1 3 403 "rate limited" (.error "not json") (fun _ => .ok [])
    ⟨"muquit", "", "", "", "", "README.md"⟩ [] [] (fun _ => none)
    (by omega) (by omega)
    (fun j h1 h2 => absurd h2 (by omega))
    rfl (by decide) (by decide) rfl rfl rfl

/-- C9: on every fatal failure before the render step — a read failure
of the exclusion, priority, AI-credit or contact input file, or a fetch
failure — the run exits with code 1 and the output file is never
created or written. -/
theorem fatal_before_render_no_output (fs : String → Except String (List String))
    (remote : Nat → PageResponse) (flags : Flags) (fuel : Nat)
    (h : (∃ e, loadTextFile fs flags.excludeFile = .error e) ∨
         (∃ e, loadTextFile fs flags.priorityFile = .error e) ∨
         (∃ e, loadAICredits fs flags.aiCreditFile = .error e) ∨
         (∃ e, (fetchRepositories remote fuel).1 = .error e) ∨
         (flags.contactFile ≠ "" ∧ ∃ e, loadTextFile fs flags.contactFile = .error e)) :
    runMain fs remote flags fuel = ⟨1, none⟩ := by
  unfold runMain
  by_cases hu : flags.username = ""
  · rw [if_pos hu]
  · rw [if_neg hu]
    cases hex : loadTextFile fs flags.excludeFile with
    | error e => rfl
    | ok exL =>
      cases hpr : loadTextFile fs flags.priorityFile with
      | error e => rfl
      | ok pL =>
        cases hai : loadAICredits fs flags.aiCreditFile with
        | error e => rfl
        | ok aiC =>
          cases hfr : (fetchRepositories remote fuel).1 with
          | error e => rfl
          | ok repos =>
            cases hco : (if flags.contactFile ≠ "" then loadTextFile fs flags.contactFile
                else .ok []) with
            | error e => rfl
            | ok contactInfo =>
              exfalso
              rcases h with ⟨e, he⟩ | ⟨e, he⟩ | ⟨e, he⟩ | ⟨e, he⟩ | ⟨hcf, e, he⟩
              · exact Except.noConfusion (he.symm.trans hex)
              · exact Except.noConfusion (he.symm.trans hpr)
              · exact Except.noConfusion (he.symm.trans hai)
              · exact Except.noConfusion (he.symm.trans hfr)
              · rw [if_pos hcf] at hco
                exact Except.noConfusion (he.symm.trans hco)

/-- Witness for C9: the exclusion file read fails. -/
theorem fatal_before_render_no_output_witness :
    loadTextFile (fun _ => .error "io failure") "exclude.txt" = .error "io failure" ∧
    runMain (fun _ => .error "io failure") (fun _ => .response 200 "" (.ok []))
      ⟨"muquit", "exclude.txt", "", "", "", "README.md"⟩ 1 = ⟨1, none⟩ :=
  ⟨rfl, fatal_before_render_no_output (fun _ => .error "io failure")
    (fun _ => .response 200 "" (.ok []))
    ⟨"muquit", "exclude.txt", "", "", "", "README.md"⟩ 1 (Or.inl ⟨"io failure", rfl⟩)⟩

/-- Helper for C10: the scanner loop is trimming followed by dropping
blank and comment lines. -/
theorem filterMap_processLine (lines : List String) :
    lines.filterMap processLine =
      (lines.map trimSpace).filter (fun l => !(l == "") && !(startsWithHash l)) := by
  induction lines with
  | nil => rfl
  | cons a t ih =>
    rw [List.filterMap_cons, List.map_cons, List.filter_cons]
    by_cases hc : (trimSpace a != "" && !(startsWithHash (trimSpace a))) = true
    · have hp : processLine a = some (trimSpace a) := by simp [processLine] at hc ⊢; simp [hc]
      rw [hp]
      dsimp only
      rw [if_pos (show (!(trimSpace a == "") && !(startsWithHash (trimSpace a))) = true from hc)]
      rw [ih]
    · have hp : processLine a = none := by
        unfold processLine
        dsimp only
        rw [if_neg hc]
      rw [hp]
      dsimp only
      rw [if_neg (show ¬(!(trimSpace a == "") && !(startsWithHash (trimSpace a))) = true from hc)]
      exact ih

/-- C10: loading a configuration-list file returns the file's lines with
leading and trailing whitespace trimmed, silently dropping every line
that is empty after trimming or whose trimmed form begins with `#`; an
empty filename yields the empty list with no error. -/
theorem loadTextFile_spec (fs : String → Except String (List String)) :
    loadTextFile fs "" = .ok [] ∧
    (∀ name lines, name ≠ "" → fs name = .ok lines →
      loadTextFile fs name =
        .ok ((lines.map trimSpace).filter (fun l => !(l == "") && !(startsWithHash l)))) := by
  refine ⟨by simp [loadTextFile], ?_⟩
  intro name lines hname hlines
  simp [loadTextFile, hname, hlines, filterMap_processLine]

/-- Witness for C10 on a concrete file: whitespace is trimmed, the blank
and `#` lines are dropped. -/
theorem loadTextFile_spec_witness :
    loadTextFile (fun n => if n = "cfg" then
        .ok ["  repo1  ", "", "   ", "# note", "\tr2"] else .error "nofile") "" = .ok [] ∧
    loadTextFile (fun n => if n = "cfg" then
        .ok ["  repo1  ", "", "   ", "# note", "\tr2"] else .error "nofile") "cfg" =
      .ok ["repo1", "r2"] := by
  refine ⟨(loadTextFile_spec _).1, ?_⟩
  rw [(loadTextFile_spec _).2 "cfg" _ (by decide) (by rfl)]
  rfl
